import Mathlib

/-!
Verification of the ggpr_bin codec suite against its specification.

Each Rust source function relevant to the verified properties is translated
into an executable Lean definition over `List Nat` byte buffers:

* machine integers become `Nat` (or `Int` for signed fields) with explicit
  `% 2 ^ w` where wrapping matters;
* a Rust index-out-of-bounds panic is modelled by `Option`, with `none`
  standing for the panic;
* fallible operations return `Option`.

Definitions are translated from the Rust sources in `src/`; where a theorem
compares the code against the specification text, a second definition written
from the specification's own words is introduced and named accordingly.
-/

namespace GGPR

/-! ## Byte and word helpers -/

/-- Little-endian byte serialization of a 32-bit word (`u32::to_le_bytes`). -/
def u32ToLe (x : Nat) : List Nat :=
  [x % 256, x / 2 ^ 8 % 256, x / 2 ^ 16 % 256, x / 2 ^ 24 % 256]

/-- Little-endian byte serialization of a 16-bit word (`u16::to_le_bytes`). -/
def u16ToLe (x : Nat) : List Nat :=
  [x % 256, x / 2 ^ 8 % 256]

/-- Value of four bytes interpreted little-endian (`u32::from_le_bytes`). -/
def leWord (b0 b1 b2 b3 : Nat) : Nat :=
  b0 + 2 ^ 8 * b1 + 2 ^ 16 * b2 + 2 ^ 24 * b3

/-- Value of four bytes interpreted big-endian (`u32::from_be_bytes`). -/
def beWord (b0 b1 b2 b3 : Nat) : Nat :=
  leWord b3 b2 b1 b0

/-- Read a little-endian `u32` at byte index `i`; the bounds are known to be
checked by the caller, so out-of-range reads yield the `getD` default. -/
def leWordAt (data : List Nat) (i : Nat) : Nat :=
  leWord (data.getD i 0) (data.getD (i + 1) 0) (data.getD (i + 2) 0) (data.getD (i + 3) 0)

/-- Read a big-endian `u32` at byte index `i` (bounds checked by caller). -/
def beWordAt (data : List Nat) (i : Nat) : Nat :=
  beWord (data.getD i 0) (data.getD (i + 1) 0) (data.getD (i + 2) 0) (data.getD (i + 3) 0)

/-- Read a little-endian `u32` at byte index `i`; `none` models the Rust
panic on an out-of-bounds index. -/
def readU32LE (data : List Nat) (i : Nat) : Option Nat :=
  match data.get? i, data.get? (i + 1), data.get? (i + 2), data.get? (i + 3) with
  | some b0, some b1, some b2, some b3 => some (leWord b0 b1 b2 b3)
  | _, _, _, _ => none

/-- Read a big-endian `u32` at byte index `i`; `none` models the Rust
panic on an out-of-bounds index. -/
def readU32BE (data : List Nat) (i : Nat) : Option Nat :=
  match data.get? i, data.get? (i + 1), data.get? (i + 2), data.get? (i + 3) with
  | some b0, some b1, some b2, some b3 => some (beWord b0 b1 b2 b3)
  | _, _, _, _ => none

/-! ## sprite_transform.rs -/

/-- Translation of `sprite_transform::transform_index`: palette index
permutation swapping groups of 8 indices (`u8` input; in the `+ 8` branch the
value is at most `0xEF`, so the `u8` addition never wraps). -/
def transform_index (value : Nat) : Nat :=
  if (value / 8 + 2) % 4 = 0 then value - 8
  else if (value / 8 + 3) % 4 = 0 then value + 8
  else value

/-- One iteration of the copy loop of `sprite_transform::reindex_rgba_vector`:
color `i` of the output is copied from color `transform_index(i as u8)` of the
input; `none` models the panic when that source color is out of bounds. -/
def reindexColorStep (v temp : List Nat) (i : Nat) : Option (List Nat) :=
  let ni := transform_index (i % 256)
  match v.get? (4 * ni), v.get? (4 * ni + 1), v.get? (4 * ni + 2), v.get? (4 * ni + 3) with
  | some c0, some c1, some c2, some c3 =>
      some ((((temp.set (4 * i) c0).set (4 * i + 1) c1).set (4 * i + 2) c2).set (4 * i + 3) c3)
  | _, _, _, _ => none

/-- Translation of `sprite_transform::reindex_rgba_vector`: starts from a
zero-filled vector of the same length and copies each 4-byte RGBA color from
its transformed index; `none` models the Rust index-out-of-bounds panic. -/
def reindex_rgba_vector (v : List Nat) : Option (List Nat) :=
  (List.range (v.length / 4)).foldlM (reindexColorStep v) (List.replicate v.length 0)

/-! ## bin_resource.rs : finalize_pointers -/

/-- Translation of the address-adjustment loop of
`BinResource::finalize_pointers`: the first `count` entries (the real
pointers) are incremented by `4 * tableLen` with `u32` wrap-around, the
remaining sentinel entries are left unchanged. `i` is the index of the first
element of the remaining list. -/
def adjustPointers (count tableLen : Nat) : Nat → List Nat → List Nat
  | _, [] => []
  | i, p :: rest =>
      (if i < count then (p + 4 * tableLen) % 2 ^ 32 else p)
        :: adjustPointers count tableLen (i + 1) rest

/-- Translation of `BinResource::finalize_pointers`: append the sentinel
`0xFFFFFFFF`, pad with sentinels until the entry count is a multiple of 4
(the closed form of the `while` loop), add `4 * table length` to every real
pointer, and serialize all entries as little-endian `u32` words. -/
def finalize_pointers (source_pointers : List Nat) : List Nat :=
  let fin := source_pointers ++ [0xFFFFFFFF]
  let padded := fin ++ List.replicate ((4 - fin.length % 4) % 4) 0xFFFFFFFF
  let adjusted := adjustPointers source_pointers.length padded.length 0 padded
  (adjusted.map u32ToLe).flatten

/-! ## bin_cell.rs : Cell and BoxInfo -/

/-- Signed 16-bit value as two little-endian bytes (`i16::to_le_bytes`). -/
def i16ToLe (x : Int) : List Nat :=
  u16ToLe (x % 2 ^ 16).toNat

/-- Signed 8-bit value as its single byte (`i8::to_le_bytes`). -/
def i8Byte (x : Int) : Nat :=
  (x % 2 ^ 8).toNat

/-- Reinterpret a byte as a signed 8-bit value (Rust `as i8` after `& 0xFF`). -/
def byteToI8 (n : Nat) : Int :=
  if n < 128 then (n : Int) else (n : Int) - 256

/-- Sign-extending cast of a signed value to `u32` (Rust `as u32` on `i8`). -/
def toU32 (x : Int) : Nat :=
  (x % 2 ^ 32).toNat

/-- Translation of `BoxInfo` (bin_cell.rs): one hitbox record. -/
structure BoxInfo where
  x_offset : Int
  y_offset : Int
  width : Nat
  height : Nat
  box_type : Nat
  crop_x_offset : Int
  crop_y_offset : Int
deriving DecidableEq

/-- Translation of `Cell` (bin_cell.rs): hitboxes plus sprite reference. -/
structure Cell where
  boxes : List BoxInfo
  sprite_x_offset : Int
  sprite_y_offset : Int
  unknown_1 : Nat
  sprite_index : Nat
  unknown_2 : Nat
deriving DecidableEq

/-- The 12 bytes one hitbox contributes inside `Cell::to_bin`. -/
def boxBytes (b : BoxInfo) : List Nat :=
  i16ToLe b.x_offset ++ i16ToLe b.y_offset ++ u16ToLe b.width ++ u16ToLe b.height
    ++ u16ToLe b.box_type ++ [i8Byte b.crop_x_offset] ++ [i8Byte b.crop_y_offset]

/-- The 12-byte sprite-reference trailer written by `Cell::to_bin`. -/
def cellTrailer (c : Cell) : List Nat :=
  i16ToLe c.sprite_x_offset ++ i16ToLe c.sprite_y_offset ++ u32ToLe c.unknown_1
    ++ u16ToLe c.sprite_index ++ u16ToLe c.unknown_2

/-- Translation of `Cell::to_bin`: little-endian `u32` box count, the hitbox
records, the trailer, then `0xFF` padding to a multiple of 16 bytes (closed
form of the `while` padding loop). -/
def Cell.to_bin (c : Cell) : List Nat :=
  let body := u32ToLe c.boxes.length ++ (c.boxes.map boxBytes).flatten ++ cellTrailer c
  body ++ List.replicate ((16 - body.length % 16) % 16) 0xFF

/-! ## bin_cell.rs : JSON form

The serde string encoding of the derived `CellJSON` structures is an external
library modelled as the identity on the structured records: `Cell::serialize`
is translated up to the record it hands to `serde_json::to_string_pretty`,
and `Cell::from_json_string` from the record `serde_json::from_str` yields. -/

/-- Translation of `CellJSONBox` (bin_cell.rs). -/
structure CellJSONBox where
  x_offset : Int
  y_offset : Int
  width : Nat
  height : Nat
  box_type : Nat
deriving DecidableEq

/-- Translation of `CellJSONSpriteInfo` (bin_cell.rs). -/
structure CellJSONSpriteInfo where
  index : Nat
  unk : Nat
  x_offset : Int
  y_offset : Int
deriving DecidableEq

/-- Translation of `CellJSON` (bin_cell.rs). -/
structure CellJSON where
  boxes : List CellJSONBox
  sprite_info : CellJSONSpriteInfo
deriving DecidableEq

/-- The packed `box_type` field built by `Cell::serialize`:
`(box_type as u32) | (crop_x_offset as u32) << 16 | (crop_y_offset as u32) << 24`
with the sign-extending `i8 → u32` casts and wrapping `u32` shifts. -/
def packBoxType (b : BoxInfo) : Nat :=
  b.box_type ||| (toU32 b.crop_x_offset <<< 16) % 2 ^ 32 ||| (toU32 b.crop_y_offset <<< 24) % 2 ^ 32

/-- Translation of `Cell::serialize` (up to the serde string encoding). -/
def Cell.serialize (c : Cell) : CellJSON :=
  { boxes := c.boxes.map fun b =>
      { x_offset := b.x_offset
        y_offset := b.y_offset
        width := b.width
        height := b.height
        box_type := packBoxType b }
    sprite_info :=
      { index := c.sprite_index
        unk := c.unknown_1
        x_offset := c.sprite_x_offset
        y_offset := c.sprite_y_offset } }

/-- Translation of `Cell::from_json_string` (after the serde string decoding):
unpacks `box_type` via `& 0xFFFF`, `(>> 16) & 0xFF as i8`, `(>> 24) & 0xFF as i8`
and hard-codes `unknown_2 := 0`. -/
def Cell.from_json (j : CellJSON) : Cell :=
  { boxes := j.boxes.map fun hb =>
      { x_offset := hb.x_offset
        y_offset := hb.y_offset
        width := hb.width
        height := hb.height
        box_type := hb.box_type &&& 0xFFFF
        crop_x_offset := byteToI8 ((hb.box_type >>> 16) &&& 0xFF)
        crop_y_offset := byteToI8 ((hb.box_type >>> 24) &&& 0xFF) }
    sprite_x_offset := j.sprite_info.x_offset
    sprite_y_offset := j.sprite_info.y_offset
    unknown_1 := j.sprite_info.unk
    sprite_index := j.sprite_info.index
    unknown_2 := 0 }

/-! ## bin_sprite.rs -/

/-- Translation of `bin_sprite::make_header`: the 16-byte sprite header. -/
def make_header (compressed : Bool) (clut bit_depth width height tw th hash : Nat) : List Nat :=
  [if compressed then 1 else 0, 0] ++ u16ToLe clut ++ u16ToLe bit_depth ++ u16ToLe width
    ++ u16ToLe height ++ u16ToLe tw ++ u16ToLe th ++ u16ToLe hash

/-- Translation of the hash loop of `BinSprite::to_bin`: for `byte` in
`0 .. stream.len() / 2`, XOR in `stream[byte] | stream[byte + 1] << 8`
(consecutive overlapping byte pairs; the indices really are `byte + 0` and
`byte + 1` in the source, not `2 * byte` and `2 * byte + 1`). -/
def generate_hash (stream : List Nat) : Nat :=
  (List.range (stream.length / 2)).foldl
    (fun h b => h ^^^ (stream.getD b 0 ||| stream.getD (b + 1) 0 <<< 8)) 0

/-- XOR-fold of the non-overlapping 16-bit little-endian words of the stream,
written from the specification's words for comparison with `generate_hash`. -/
def xor_fold_words (stream : List Nat) : Nat :=
  (List.range (stream.length / 2)).foldl
    (fun h k => h ^^^ (stream.getD (2 * k) 0 ||| stream.getD (2 * k + 1) 0 <<< 8)) 0

/-- The word-swapped compressed stream written by `BinSprite::to_bin`
(pairs `stream[2b+1], stream[2b]`; a trailing odd byte is dropped). -/
def swapPairs : List Nat → List Nat
  | a :: b :: rest => b :: a :: swapPairs rest
  | _ => []

/-- The iteration-count bytes written by `BinSprite::to_bin`, in the source's
byte order `[BB, AA, DD, CC]` (`>> 16`, `>> 24`, `>> 0`, `>> 8`, each `as u8`). -/
def iterationsBytes (it : Nat) : List Nat :=
  [it / 2 ^ 16 % 256, it / 2 ^ 24 % 256, it % 256, it / 2 ^ 8 % 256]

/-- Translation of `BinSprite::to_bin`, parameterized by the output of
`sprite_compress::compress` (whose source file is not part of `src/`):
header with the generated hash, optional embedded palette, iteration count,
then the word-swapped compressed stream. -/
def sprite_to_bin (palette : List Nat) (bit_depth width height : Nat)
    (stream : List Nat) (iterations : Nat) : List Nat :=
  make_header true (if palette.length ≠ 0 then 0x20 else 0) bit_depth width height 0 0
      (generate_hash stream)
    ++ palette ++ iterationsBytes (iterations % 2 ^ 32) ++ swapPairs stream

/-! ## bin_decrypt.rs : Mersenne Twister -/

/-- Combination of the high/low masked state words in the code's `twist`
(`(table[i] & 0x80000000) + (table[i+1] & 0x7FFFFFFF)`, using `+`). -/
def twistValueCode (a b : Nat) : Nat :=
  (a &&& 0x80000000) + (b &&& 0x7FFFFFFF)

/-- Combination of the high/low masked state words as published for MT19937
(`(mt[kk] & UPPER_MASK) | (mt[kk+1] & LOWER_MASK)`, using `|`),
written from the specification's words. -/
def twistValueRef (a b : Nat) : Nat :=
  (a &&& 0x80000000) ||| (b &&& 0x7FFFFFFF)

/-- Translation of `MersenneTwister::initialize` (bin_decrypt.rs): the table is
grown by pushing `MERSENNE_INIT * (prev ^ (prev >> 30)) + i` with `u32`
wrap-around; built here most-recent-first and reversed. -/
def mtInitRev (seed : Nat) : Nat → List Nat
  | 0 => [seed]
  | i + 1 =>
      let rest := mtInitRev seed i
      let previous := rest.headD 0
      (0x6C078965 * (previous ^^^ previous >>> 30) + (i + 1)) % 2 ^ 32 :: rest

/-- The 624-word state table after `MersenneTwister::initialize`. -/
def mtInitTable (seed : Nat) : List Nat :=
  (mtInitRev seed 623).reverse

/-- State word `i` of the published MT19937 seeding recurrence
`mt[i] = 1812433253 * (mt[i-1] ^ (mt[i-1] >> 30)) + i mod 2^32`,
written from the specification's words. -/
def mtRefWord (seed : Nat) : Nat → Nat
  | 0 => seed
  | i + 1 =>
      let previous := mtRefWord seed i
      (1812433253 * (previous ^^^ previous >>> 30) + (i + 1)) % 2 ^ 32

/-- The initial 624-word state of the published MT19937 algorithm. -/
def mtRefTable (seed : Nat) : List Nat :=
  (List.range 624).map (mtRefWord seed)

/-- Translation of `MersenneTwister::twist`: one sequential in-place pass over
the 624-word table (each update may read words already updated in this pass,
exactly as the in-place Rust loop does). -/
def mtTwistCode (table : List Nat) : List Nat :=
  (List.range 624).foldl
    (fun t i =>
      let value := twistValueCode (t.getD i 0) (t.getD ((i + 1) % 624) 0)
      let fresh := t.getD ((i + 397) % 624) 0 ^^^ value >>> 1
      t.set i (if value &&& 1 ≠ 0 then fresh ^^^ 0x9908B0DF else fresh))
    table

/-- The published MT19937 state regeneration written from the specification's
words: `mt[kk] = mt[(kk+397) mod 624] ^ (y >> 1) ^ mag01[y & 1]` with
`mag01 = [0, 0x9908B0DF]`, performed in place over the state array. -/
def mtTwistRef (table : List Nat) : List Nat :=
  (List.range 624).foldl
    (fun t i =>
      let y := twistValueRef (t.getD i 0) (t.getD ((i + 1) % 624) 0)
      t.set i (t.getD ((i + 397) % 624) 0 ^^^ y >>> 1 ^^^ [0, 0x9908B0DF].getD (y &&& 1) 0))
    table

/-- The four tempering steps of `MersenneTwister::get_next_number`
(`u32` left shifts wrap, hence the explicit `% 2 ^ 32`). -/
def temperCode (value : Nat) : Nat :=
  let v1 := value ^^^ value >>> 11
  let v2 := v1 ^^^ (v1 <<< 7) % 2 ^ 32 &&& 0x9D2C5680
  let v3 := v2 ^^^ (v2 <<< 15) % 2 ^ 32 &&& 0xEFC60000
  v3 ^^^ v3 >>> 18

/-- The published MT19937 tempering, written from the specification's words. -/
def temperRef (y0 : Nat) : Nat :=
  let y1 := y0 ^^^ y0 >>> 11
  let y2 := y1 ^^^ (y1 <<< 7) % 2 ^ 32 &&& 2636928640
  let y3 := y2 ^^^ (y2 <<< 15) % 2 ^ 32 &&& 4022730752
  y3 ^^^ y3 >>> 18

/-- PRNG state: current index plus the 624-word table. -/
structure MTState where
  index : Nat
  table : List Nat
deriving DecidableEq

/-- Translation of `MersenneTwister::get_next_number`: regenerate when the
index reaches the table length (the twist loop resets the index to 0), then
temper and advance. -/
def mtNextCode (s : MTState) : Nat × MTState :=
  let s := if 624 ≤ s.index then { index := 0, table := mtTwistCode s.table } else s
  (temperCode (s.table.getD s.index 0), { s with index := s.index + 1 })

/-- The published MT19937 output step, written from the specification's words. -/
def mtNextRef (s : MTState) : Nat × MTState :=
  let s := if 624 ≤ s.index then { index := 0, table := mtTwistRef s.table } else s
  (temperRef (s.table.getD s.index 0), { s with index := s.index + 1 })

/-- First `n` outputs of the code's PRNG from state `s`. -/
def mtRunCode (s : MTState) : Nat → List Nat
  | 0 => []
  | n + 1 =>
      let r := mtNextCode s
      r.1 :: mtRunCode r.2 n

/-- First `n` outputs of the published MT19937 from state `s`. -/
def mtRunRef (s : MTState) : Nat → List Nat
  | 0 => []
  | n + 1 =>
      let r := mtNextRef s
      r.1 :: mtRunRef r.2 n

/-- First `n` outputs of the code's PRNG seeded with `seed` (after
`initialize`, the index is 624, forcing a twist before the first output). -/
def mtSequence (seed n : Nat) : List Nat :=
  mtRunCode { index := 624, table := mtInitTable seed } n

/-- First `n` outputs of the published MT19937 reference for `seed`. -/
def mtRefSequence (seed n : Nat) : List Nat :=
  mtRunRef { index := 624, table := mtRefTable seed } n

/-! ## bin_decrypt.rs : decrypt_file -/

/-- ASCII upper-casing of one byte, modelling `str::to_uppercase` on the
ASCII file names the decrypter sees. -/
def asciiUpper (b : Nat) : Nat :=
  if 97 ≤ b ∧ b ≤ 122 then b - 32 else b

/-- Translation of the key schedule of `decrypt_file`: fold
`seed = seed * 137 + byte` (two wrapping `u32` steps) over the bytes of the
upper-cased file name (the name only, not the path). -/
def seedOfName (name : List Nat) : Nat :=
  (name.map asciiUpper).foldl (fun s b => (s * 137 + b) % 2 ^ 32) 0

/-- Translation of the word loop of `decrypt_file`: while at least 4 bytes
remain, XOR the little-endian ciphertext word with the running `last_out` and
the next PRNG word, emit the result little-endian, and chain it into
`last_out`; trailing 1–3 bytes are dropped. -/
def decryptWordsCode (st : MTState) (lastOut : Nat) : List Nat → List Nat
  | b0 :: b1 :: b2 :: b3 :: rest =>
      let r := mtNextCode st
      let fresh := lastOut ^^^ leWord b0 b1 b2 b3 ^^^ r.1
      u32ToLe fresh ++ decryptWordsCode r.2 fresh rest
  | _ => []

/-- Translation of `decrypt_file` (after the path/file-name extraction):
seed from the upper-cased name, `last_out` initialized to `0x43415046`. -/
def decrypt_file (name data : List Nat) : List Nat :=
  decryptWordsCode { index := 624, table := mtInitTable (seedOfName name) } 0x43415046 data

/-- The little-endian 32-bit ciphertext words of a buffer (one per full
4-byte group, trailing bytes dropped), from the specification's words. -/
def cipherWords : List Nat → List Nat
  | b0 :: b1 :: b2 :: b3 :: rest => leWord b0 b1 b2 b3 :: cipherWords rest
  | _ => []

/-- The chained decryption of the specification's words: for each ciphertext
word `c` and PRNG word `r`, `plain = last_out ^ c ^ r`, then
`last_out = plain`. -/
def chainPlain (lastOut : Nat) : List Nat → List Nat → List Nat
  | c :: cs, r :: rs =>
      let p := lastOut ^^^ c ^^^ r
      p :: chainPlain p cs rs
  | _, _ => []

/-! ## Encrypted-file signature checks -/

/-- Translation of `ENCRYPTED_SIGNATURE` (bin_identify.rs). -/
def ENCRYPTED_SIGNATURE : Nat := 0x41534743

/-- Result of the length and encryption checks opening
`BinResource::load_binary_data`. -/
inductive LoadCheck where
  | tooShort
  | encrypted
  | proceed
deriving DecidableEq

/-- Translation of the opening checks of `BinResource::load_binary_data`:
reject files shorter than `0x30` bytes, then compare
`u32::from_le_bytes([data[len-1], data[len-2], data[len-3], data[len-4]])`
(the trailing four bytes in reversed order) against the signature. -/
def load_binary_check (data : List Nat) : LoadCheck :=
  if data.length < 0x30 then .tooShort
  else if leWord (data.getD (data.length - 1) 0) (data.getD (data.length - 2) 0)
      (data.getD (data.length - 3) 0) (data.getD (data.length - 4) 0) = ENCRYPTED_SIGNATURE
  then .encrypted
  else .proceed

/-- Translation of the signature check `decrypt_folder` applies to decide
whether a file is decrypted and rewritten (the same reversed-byte read);
`none` models the panic on files shorter than 4 bytes. -/
def decrypt_folder_selects (data : List Nat) : Option Bool :=
  if data.length < 4 then none
  else some (leWord (data.getD (data.length - 1) 0) (data.getD (data.length - 2) 0)
      (data.getD (data.length - 3) 0) (data.getD (data.length - 4) 0) == ENCRYPTED_SIGNATURE)

/-! ## decompressor.rs

The `BitReader` over the word-swapped byte buffer is modelled as a list of
bits read MSB-first from the front; reading past the end (`unwrap` on an
exhausted reader) is modelled by `none`. -/

/-- Value of a bit list read MSB-first. -/
def bitsVal (l : List Bool) : Nat :=
  l.foldl (fun acc b => 2 * acc + if b then 1 else 0) 0

/-- Read one bit (`BitReader::read_bit`). -/
def readBit (bits : List Bool) : Option (Bool × List Bool) :=
  match bits with
  | [] => none
  | b :: rest => some (b, rest)

/-- Read an `n`-bit MSB-first unsigned value (`BitReader::read(n)`). -/
def readBits (n : Nat) (bits : List Bool) : Option (Nat × List Bool) :=
  if n ≤ bits.length then some (bitsVal (bits.take n), bits.drop n) else none

/-- The copy loop of the decompressor's back-reference branch:
`for pixel in 0..length { pixel_vector.push(pixel_vector[idx + pixel]) }`,
pushing one pixel at a time so that the source index may reach pixels
appended by the same token; `none` models the index panic. -/
def pushCopies (pv : List Nat) (idx : Nat) : Nat → Option (List Nat)
  | 0 => some pv
  | c + 1 =>
      match pv.get? idx with
      | none => none
      | some x => pushCopies (pv ++ [x]) (idx + 1) c

/-- Translation of one iteration of the main loop of
`decompressor::decompress` (lines 74–99): bit flag `1` reads one literal
pixel, plus a second one unless that would reach `pixel_count`; bit flag `0`
computes the window origin, reads a 9-bit offset and a 7-bit length field,
and copies `3 + length_field` pixels byte-by-byte. -/
def decompressStep (pixel_count : Nat) (pv : List Nat) (bits : List Bool) :
    Option (List Nat × List Bool) :=
  match readBit bits with
  | none => none
  | some (true, r1) =>
      match readBits 8 r1 with
      | none => none
      | some (p1, r2) =>
          let pv1 := pv ++ [p1]
          if pv1.length + 1 < pixel_count then
            match readBits 8 r2 with
            | none => none
            | some (p2, r3) => some (pv1 ++ [p2], r3)
          else some (pv1, r2)
  | some (false, r1) =>
      let window_origin := if pv.length > 512 then pv.length - 512 else 0
      match readBits 9 r1 with
      | none => none
      | some (offset, r2) =>
          match readBits 7 r2 with
          | none => none
          | some (lenField, r3) =>
              match pushCopies pv (window_origin + offset) (3 + lenField) with
              | none => none
              | some pv2 => some (pv2, r3)

/-- Translation of the main loop of `decompressor::decompress`: run
`decompressStep` for the stored number of iterations. -/
def decompressLoop (pixel_count : Nat) : Nat → List Nat → List Bool → Option (List Nat)
  | 0, pv, _ => some pv
  | n + 1, pv, bits =>
      match decompressStep pixel_count pv bits with
      | none => none
      | some (pv2, bits2) => decompressLoop pixel_count n pv2 bits2

/-! ## bin_identify.rs -/

/-- Translation of `SPRITE_SIGNATURES` (bin_identify.rs). -/
def SPRITE_SIGNATURES : List (List Nat) :=
  [[0x00, 0x00, 0x00, 0x00, 0x04, 0x00],
   [0x00, 0x00, 0x00, 0x00, 0x08, 0x00],
   [0x00, 0x00, 0x20, 0x00, 0x04, 0x00],
   [0x00, 0x00, 0x20, 0x00, 0x08, 0x00],
   [0x01, 0x00, 0x00, 0x00, 0x04, 0x00],
   [0x01, 0x00, 0x00, 0x00, 0x08, 0x00],
   [0x01, 0x00, 0x20, 0x00, 0x04, 0x00],
   [0x01, 0x00, 0x20, 0x00, 0x08, 0x00]]

/-- Translation of `ObjectType` (bin_identify.rs). -/
inductive ObjectType where
  | Sprite
  | SpriteList
  | SpriteListSelect
  | JPFPlainText
  | WiiTPL
  | Scriptable
  | MultiScriptable
  | Unsupported
deriving DecidableEq

/-- Fueled translation of the loop of `bin_identify::get_pointers`: read
32-bit words (endianness as requested) until fewer than 4 bytes remain or the
sentinel `0xFFFFFFFF` appears. Each iteration advances the cursor by 4 and
requires `cursor + 3 < data.length`, so the loop runs at most
`data.length` times; `get_pointers` supplies fuel `data.length + 1`, which
therefore never runs out before the loop's own exit conditions. -/
def getPointersAux (data : List Nat) (bigEndian : Bool) : Nat → Nat → List Nat
  | 0, _ => []
  | fuel + 1, cursor =>
      if data.length ≤ cursor + 3 then []
      else
        let p := if bigEndian then beWordAt data cursor else leWordAt data cursor
        if p = 0xFFFFFFFF then []
        else p :: getPointersAux data bigEndian fuel (cursor + 4)

/-- Translation of `bin_identify::get_pointers`. -/
def get_pointers (data : List Nat) (cursor : Nat) (bigEndian : Bool) : List Nat :=
  getPointersAux data bigEndian (data.length + 1) cursor

/-- Whether the six bytes at `c` match one of the eight sprite signatures
(callers establish `c + 5 < data.length` before this is consulted). -/
def sprite_sig_at (data : List Nat) (c : Nat) : Bool :=
  SPRITE_SIGNATURES.contains
    [data.getD c 0, data.getD (c + 1) 0, data.getD (c + 2) 0,
     data.getD (c + 3) 0, data.getD (c + 4) 0, data.getD (c + 5) 0]

/-- Translation of `identify_audio_wbnd`: `pointers[0]` is read without an
emptiness check, so an empty pointer table panics (`none`). -/
def identify_audio_wbnd (data : List Nat) : Option Bool :=
  match (get_pointers data 0 true).head? with
  | none => none
  | some p => some (p == 0x444E4257)

/-- Translation of `identify_audio_vagp`: `pointers[0]` is read without an
emptiness check, and after the `len <= pointers[0]` guard the four magic
bytes are read without checking `pointers[0] + 3`. -/
def identify_audio_vagp (data : List Nat) : Option Bool :=
  match (get_pointers data 0 true).head? with
  | none => none
  | some p0 =>
      if data.length ≤ p0 then some false
      else
        match readU32BE data p0 with
        | none => none
        | some v => some (v == 0x56414770)

/-- Translation of `identify_sprite`. -/
def identify_sprite (data : List Nat) : Bool :=
  if data.length < 0x20 then false else sprite_sig_at data 0

/-- Translation of `identify_sprite_list`. -/
def identify_sprite_list (data : List Nat) : Bool :=
  let hp := get_pointers data 0 false
  if hp.length < 1 then false
  else
    let cursor := hp.headD 0
    if data.length ≤ cursor + 5 then false else sprite_sig_at data cursor

/-- Translation of `identify_sprite_list_select`: the bitmask slice
`data[pointer_select..bitmask_end]` and the eight bitmask header bytes are
taken without bounds checks, so an invalid range panics (`none`); the
`u32` product `w * h` wraps. -/
def identify_sprite_list_select (data : List Nat) : Option Bool :=
  if !identify_sprite_list data then some false
  else
    let hp := get_pointers data 0 false
    let pointer_select := if 179 < hp.length then hp.getD 178 0 else hp.getD (hp.length - 1) 0
    let bitmask_end := if 179 < hp.length then hp.getD 179 0 else data.length
    if pointer_select ≤ bitmask_end ∧ bitmask_end ≤ data.length then
      let bitmask := (data.drop pointer_select).take (bitmask_end - pointer_select)
      if bitmask.length < 8 then none
      else
        let w := leWordAt bitmask 0
        let h := leWordAt bitmask 4
        let target := 0x08 + w * h % 2 ^ 32
        some (bitmask.length == target + target % 0x10)
    else none

/-- Translation of `identify_jpf_plain_text`. -/
def identify_jpf_plain_text (data : List Nat) : Bool :=
  let hp := get_pointers data 0 false
  if hp.length < 2 then false
  else
    let c1 := hp.getD 0 0
    if data.length ≤ c1 + 3 then false
    else
      let charOk := beWordAt data c1 == 0x082A2000
      let c2 := hp.getD 1 0
      if data.length ≤ c2 + 5 then false
      else charOk && sprite_sig_at data c2

/-- Translation of `identify_wii_tpl`: the first four bytes are read without
a length check. -/
def identify_wii_tpl (data : List Nat) : Option Bool :=
  match readU32BE data 0 with
  | none => none
  | some v => some (v == 0x0020AF30)

/-- Translation of the cell-pointer gathering loop of `identify_scriptable`:
collect up to 3 little-endian pointers starting at `cursor`, stopping at the
buffer end or the sentinel. -/
def cellPtrsAux (data : List Nat) : Nat → Nat → List Nat
  | _, 0 => []
  | cursor, fuel + 1 =>
      if data.length ≤ cursor + 3 then []
      else
        let p := leWordAt data cursor
        if p = 0xFFFFFFFF then [] else p :: cellPtrsAux data (cursor + 4) fuel

/-- Translation of the cell length check loop of `identify_scriptable`: each
adjacent pointer pair delimits one cell, whose length must equal
`0x10 + 0xC * box_count` rounded up to a 16-byte boundary; the slice and the
4-byte box count read are unchecked in the source (`none` on a panic). -/
def cellLenCheck (data : List Nat) (base : Nat) : List Nat → Option Bool
  | p1 :: p2 :: rest =>
      let start := base + p1
      let stop := base + p2
      if start ≤ stop ∧ stop ≤ data.length then
        let cell := (data.drop start).take (stop - start)
        if cell.length < 4 then none
        else
          let box_count := leWordAt cell 0
          let t0 := 0x10 + 0xC * box_count
          let target := if t0 % 0x10 ≠ 0 then t0 + (0x10 - t0 % 0x10) else t0
          if cell.length ≠ target then some false else cellLenCheck data base (p2 :: rest)
      else none
  | _ => some true

/-- Translation of `identify_scriptable`. -/
def identify_scriptable (data : List Nat) : Option Bool :=
  let hp := get_pointers data 0 false
  if hp.length < 2 then some false
  else if 4 < hp.length then some false
  else
    let paletteOk : Option Bool :=
      if hp.length == 4 then
        match readU32LE data (hp.getD 3 0) with
        | none => none
        | some off =>
            match readU32BE data (hp.getD 3 0 + off) with
            | none => none
            | some sig => some (sig == 0x03002000)
      else some true
    match paletteOk with
    | none => none
    | some false => some false
    | some true =>
        let cp0 := cellPtrsAux data (hp.getD 0 0) 3
        let cp := if cp0.length < 2 then cp0 ++ [hp.getD 1 0 - hp.getD 0 0] else cp0
        match cellLenCheck data (hp.getD 0 0) cp with
        | none => none
        | some false => some false
        | some true =>
            let csp := hp.getD 1 0
            if data.length ≤ csp + 3 then some false
            else
              let sprite_pointer := csp + leWordAt data csp
              if data.length < sprite_pointer + 0x20 then some false
              else some (sprite_sig_at data sprite_pointer)

/-- Translation of the per-object loop of `identify_multi_scriptable`: each
top-level pointer target must itself hold exactly 3 pointers, and its second
pointer must resolve to a sprite signature; the `u32` read at
`cursor_object + pointers[1]` and the six signature bytes are unchecked. -/
def multiCheck (data : List Nat) : List Nat → Option Bool
  | [] => some true
  | p :: rest =>
      let ptrs := get_pointers data p false
      if ptrs.length ≠ 3 then some false
      else
        match readU32LE data (p + ptrs.getD 1 0) with
        | none => none
        | some spOff =>
            let cs := p + ptrs.getD 1 0 + spOff
            if data.length ≤ cs + 5 then none
            else if sprite_sig_at data cs then multiCheck data rest else some false

/-- Translation of `identify_multi_scriptable`. -/
def identify_multi_scriptable (data : List Nat) : Option Bool :=
  multiCheck data (get_pointers data 0 false)

/-- Translation of `identify_object`: the priority-ordered chain of
predicates; `none` propagates a panic in any predicate. -/
def identify_object (data : List Nat) : Option ObjectType :=
  match identify_audio_wbnd data with
  | none => none
  | some true => some .Unsupported
  | some false =>
      match identify_audio_vagp data with
      | none => none
      | some true => some .Unsupported
      | some false =>
          if identify_sprite data then some .Sprite
          else
            match identify_sprite_list_select data with
            | none => none
            | some true => some .SpriteListSelect
            | some false =>
                if identify_sprite_list data then some .SpriteList
                else if identify_jpf_plain_text data then some .JPFPlainText
                else
                  match identify_wii_tpl data with
                  | none => none
                  | some true => some .WiiTPL
                  | some false =>
                      match identify_scriptable data with
                      | none => none
                      | some true => some .Scriptable
                      | some false =>
                          match identify_multi_scriptable data with
                          | none => none
                          | some true => some .MultiScriptable
                          | some false => some .Unsupported

/-! ## Theorems -/

/-! ### C2 : finalize_pointers -/

theorem adjustPointers_append (c L : Nat) (xs ys : List Nat) (i : Nat) :
    adjustPointers c L i (xs ++ ys)
      = adjustPointers c L i xs ++ adjustPointers c L (i + xs.length) ys := by
  induction xs generalizing i with
  | nil => simp [adjustPointers]
  | cons x xs ih =>
      simp only [List.cons_append, adjustPointers, List.length_cons, List.append_eq]
      rw [ih (i + 1)]
      have harith : i + 1 + xs.length = i + (xs.length + 1) := by omega
      rw [harith]

theorem adjustPointers_lt (c L : Nat) (xs : List Nat) (i : Nat) (h : i + xs.length ≤ c) :
    adjustPointers c L i xs = xs.map fun p => (p + 4 * L) % 2 ^ 32 := by
  induction xs generalizing i with
  | nil => simp [adjustPointers]
  | cons x xs ih =>
      simp only [List.length_cons] at h
      simp only [adjustPointers, List.map_cons]
      rw [if_pos (by omega), ih (i + 1) (by omega)]

theorem adjustPointers_ge (c L : Nat) (xs : List Nat) (i : Nat) (h : c ≤ i) :
    adjustPointers c L i xs = xs := by
  induction xs generalizing i with
  | nil => rfl
  | cons x xs ih =>
      simp only [adjustPointers]
      rw [if_neg (by omega), ih (i + 1) (by omega)]

/-- C2: `finalize_pointers` produces the input offsets each increased by
`4 *` the final entry count (with `u32` wrap-around), followed by the
sentinel `0xFFFFFFFF` repeated until the entry count is a multiple of 4
(at least once), all serialized as little-endian 32-bit words. -/
theorem finalize_pointers_spec (src : List Nat) :
    (src.length + 1 + (4 - (src.length + 1) % 4) % 4) % 4 = 0 ∧
    src.length < src.length + 1 + (4 - (src.length + 1) % 4) % 4 ∧
    finalize_pointers src =
      (((src.map fun p =>
            (p + 4 * (src.length + 1 + (4 - (src.length + 1) % 4) % 4)) % 2 ^ 32)
          ++ List.replicate
              (src.length + 1 + (4 - (src.length + 1) % 4) % 4 - src.length)
              0xFFFFFFFF).map u32ToLe).flatten := by
  have hsub : src.length + 1 + (4 - (src.length + 1) % 4) % 4 - src.length
      = (4 - (src.length + 1) % 4) % 4 + 1 := by omega
  refine ⟨by omega, by omega, ?_⟩
  rw [hsub]
  unfold finalize_pointers
  have hsplit : (src ++ [0xFFFFFFFF])
      ++ List.replicate ((4 - (src ++ [0xFFFFFFFF]).length % 4) % 4) 0xFFFFFFFF
      = src ++ List.replicate ((4 - (src.length + 1) % 4) % 4 + 1) 0xFFFFFFFF := by
    rw [List.append_assoc]
    congr 1
    rw [List.replicate_succ, List.singleton_append]
    congr 3
    simp
  simp only [hsplit]
  rw [adjustPointers_append, adjustPointers_lt _ _ _ _ (by omega),
    adjustPointers_ge _ _ _ _ (by omega)]
  have hlen : (src ++ List.replicate ((4 - (src.length + 1) % 4) % 4 + 1) 0xFFFFFFFF).length
      = src.length + 1 + (4 - (src.length + 1) % 4) % 4 := by
    simp only [List.length_append, List.length_replicate]
    omega
  rw [hlen]

/-! ### C7 : Cell::to_bin layout -/

theorem boxBytes_length (b : BoxInfo) : (boxBytes b).length = 12 := rfl

theorem cellTrailer_length (c : Cell) : (cellTrailer c).length = 12 := rfl

theorem boxesFlatten_length (bs : List BoxInfo) :
    ((bs.map boxBytes).flatten).length = 12 * bs.length := by
  induction bs with
  | nil => rfl
  | cons b bs ih =>
      simp only [List.map_cons, List.flatten_cons, List.length_append, boxBytes_length, ih,
        List.length_cons]
      ring

theorem leWord_u32ToLe (n : Nat) :
    leWord (n % 256) (n / 2 ^ 8 % 256) (n / 2 ^ 16 % 256) (n / 2 ^ 24 % 256) = n % 2 ^ 32 := by
  unfold leWord
  omega

/-- C7: `Cell::to_bin` writes a leading little-endian `u32` equal to the box
count, `12` bytes per box and a `12`-byte trailer — `16 + 12 * n` bytes
before padding — then pads with `0xFF` to the next multiple of 16; a cell
with two boxes is 40 bytes before padding and exactly 48 after. -/
theorem cell_to_bin_spec (c : Cell) :
    (u32ToLe c.boxes.length ++ (c.boxes.map boxBytes).flatten ++ cellTrailer c).length
        = 16 + 12 * c.boxes.length ∧
    Cell.to_bin c
        = (u32ToLe c.boxes.length ++ (c.boxes.map boxBytes).flatten ++ cellTrailer c)
          ++ List.replicate ((16 - (16 + 12 * c.boxes.length) % 16) % 16) 0xFF ∧
    leWordAt (Cell.to_bin c) 0 = c.boxes.length % 2 ^ 32 ∧
    (Cell.to_bin c).length % 16 = 0 ∧
    (c.boxes.length = 2 →
      (u32ToLe c.boxes.length ++ (c.boxes.map boxBytes).flatten ++ cellTrailer c).length = 40 ∧
      (Cell.to_bin c).length = 48) := by
  have hbody : (u32ToLe c.boxes.length ++ (c.boxes.map boxBytes).flatten ++ cellTrailer c).length
      = 16 + 12 * c.boxes.length := by
    simp only [List.length_append, boxesFlatten_length, cellTrailer_length, u32ToLe,
      List.length_cons, List.length_nil]
    ring
  have hbin : Cell.to_bin c
      = (u32ToLe c.boxes.length ++ (c.boxes.map boxBytes).flatten ++ cellTrailer c)
        ++ List.replicate ((16 - (16 + 12 * c.boxes.length) % 16) % 16) 0xFF := by
    unfold Cell.to_bin
    simp only [hbody]
  have hlen : (Cell.to_bin c).length
      = 16 + 12 * c.boxes.length + (16 - (16 + 12 * c.boxes.length) % 16) % 16 := by
    rw [hbin, List.length_append, hbody, List.length_replicate]
  have hword : leWordAt (Cell.to_bin c) 0 = c.boxes.length % 2 ^ 32 := by
    rw [hbin]
    simp only [u32ToLe, List.cons_append, leWordAt, List.getD_cons_zero, List.getD_cons_succ]
    exact leWord_u32ToLe c.boxes.length
  exact ⟨hbody, hbin, hword, by omega, fun h2 => by rw [hbody, hlen, h2]; omega⟩

/-- Witness for C7 at a concrete two-box cell. -/
theorem cell_to_bin_spec_witness :
    (Cell.to_bin
        { boxes := [⟨0, 0, 0, 0, 0, 0, 0⟩, ⟨1, -2, 3, 4, 5, -6, 7⟩],
          sprite_x_offset := -1, sprite_y_offset := 2, unknown_1 := 3,
          sprite_index := 4, unknown_2 := 5 }).length = 48 ∧
    leWordAt (Cell.to_bin
        { boxes := [⟨0, 0, 0, 0, 0, 0, 0⟩, ⟨1, -2, 3, 4, 5, -6, 7⟩],
          sprite_x_offset := -1, sprite_y_offset := 2, unknown_1 := 3,
          sprite_index := 4, unknown_2 := 5 }) 0 = 2 % 2 ^ 32 := by
  have h := cell_to_bin_spec
    { boxes := [⟨0, 0, 0, 0, 0, 0, 0⟩, ⟨1, -2, 3, 4, 5, -6, 7⟩],
      sprite_x_offset := -1, sprite_y_offset := 2, unknown_1 := 3,
      sprite_index := 4, unknown_2 := 5 }
  exact ⟨(h.2.2.2.2 rfl).2, h.2.2.1⟩

/-! ### C5 : encrypted-file signature -/

/-- C5 counterexample: a 0x30-byte file whose trailing four bytes are, in
file order, `0x47 0x43 0x53 0x41` (the claim's marker) is not reported as
encrypted by `load_binary_data` and is skipped by `decrypt_folder`. -/
theorem load_binary_signature_counterexample :
    load_binary_check (List.replicate 44 0 ++ [0x47, 0x43, 0x53, 0x41]) = .proceed ∧
    decrypt_folder_selects (List.replicate 44 0 ++ [0x47, 0x43, 0x53, 0x41]) = some false := by
  exact ⟨by decide, by decide⟩

theorem trailing_four_bytes (data : List Nat) (h4 : 4 ≤ data.length)
    (h0 : data.length - 4 < data.length) (h1 : data.length - 3 < data.length)
    (h2 : data.length - 2 < data.length) (h3 : data.length - 1 < data.length) :
    data.drop (data.length - 4)
      = [data[data.length - 4], data[data.length - 3],
         data[data.length - 2], data[data.length - 1]] := by
  rw [List.drop_eq_getElem_cons h0, show data.length - 4 + 1 = data.length - 3 by omega,
    List.drop_eq_getElem_cons h1, show data.length - 3 + 1 = data.length - 2 by omega,
    List.drop_eq_getElem_cons h2, show data.length - 2 + 1 = data.length - 1 by omega,
    List.drop_eq_getElem_cons h3, show data.length - 1 + 1 = data.length by omega,
    List.drop_length]

/-- C5 amended: a file of byte values is treated as encrypted (by both
`load_binary_data` and `decrypt_folder`) exactly when its trailing four
bytes are, in file order, `0x41 0x53 0x47 0x43` — i.e. the value
`0x41534743` read from the trailing bytes in reversed order. -/
theorem load_binary_signature_iff (data : List Nat) (hlen : 0x30 ≤ data.length)
    (hb : ∀ b ∈ data, b < 256) :
    (load_binary_check data = .encrypted ↔
      data.drop (data.length - 4) = [0x41, 0x53, 0x47, 0x43]) ∧
    (decrypt_folder_selects data = some true ↔
      data.drop (data.length - 4) = [0x41, 0x53, 0x47, 0x43]) := by
  have h0 : data.length - 4 < data.length := by omega
  have h1 : data.length - 3 < data.length := by omega
  have h2 : data.length - 2 < data.length := by omega
  have h3 : data.length - 1 < data.length := by omega
  have hg : ∀ i, (h : i < data.length) → data.getD i 0 = data[i] := by
    intro i h
    rw [List.getD_eq_getElem?_getD, List.getElem?_eq_getElem h, Option.getD_some]
  have hcheck : leWord (data.getD (data.length - 1) 0) (data.getD (data.length - 2) 0)
      (data.getD (data.length - 3) 0) (data.getD (data.length - 4) 0) = ENCRYPTED_SIGNATURE
      ↔ data.drop (data.length - 4) = [0x41, 0x53, 0x47, 0x43] := by
    rw [trailing_four_bytes data (by omega) h0 h1 h2 h3,
      hg _ h0, hg _ h1, hg _ h2, hg _ h3]
    have hb0 : data[data.length - 4] < 256 := hb _ (data.getElem_mem h0)
    have hb1 : data[data.length - 3] < 256 := hb _ (data.getElem_mem h1)
    have hb2 : data[data.length - 2] < 256 := hb _ (data.getElem_mem h2)
    have hb3 : data[data.length - 1] < 256 := hb _ (data.getElem_mem h3)
    unfold leWord ENCRYPTED_SIGNATURE
    simp only [List.cons.injEq, and_true]
    omega
  constructor
  · unfold load_binary_check
    rw [if_neg (by omega)]
    rw [← hcheck]
    by_cases hP : leWord (data.getD (data.length - 1) 0) (data.getD (data.length - 2) 0)
        (data.getD (data.length - 3) 0) (data.getD (data.length - 4) 0) = ENCRYPTED_SIGNATURE
    · simp [hP]
    · simp [hP]
  · unfold decrypt_folder_selects
    rw [if_neg (by omega)]
    rw [← hcheck]
    simp [beq_iff_eq]

/-- Witness for C5 at a concrete file carrying the actual marker. -/
theorem load_binary_signature_iff_witness :
    load_binary_check (List.replicate 44 0 ++ [0x41, 0x53, 0x47, 0x43]) = .encrypted ∧
    decrypt_folder_selects (List.replicate 44 0 ++ [0x41, 0x53, 0x47, 0x43]) = some true := by
  have h := load_binary_signature_iff (List.replicate 44 0 ++ [0x41, 0x53, 0x47, 0x43])
    (by decide) (by decide)
  exact ⟨h.1.mpr (by decide), h.2.mpr (by decide)⟩

/-! ### C9 : sprite hash field -/

/-- C9 counterexample: for the compressed stream `[1, 2, 3, 4]` the hash
field written by `BinSprite::to_bin` is `0x0103` (the XOR of the two
overlapping pairs `stream[0] | stream[1] << 8` and `stream[1] | stream[2] << 8`),
not the claimed XOR-fold `0x0602` of the non-overlapping 16-bit words. -/
theorem sprite_hash_counterexample :
    generate_hash [1, 2, 3, 4] = 0x0103 ∧
    xor_fold_words [1, 2, 3, 4] = 0x0602 ∧
    (sprite_to_bin [] 8 2 2 [1, 2, 3, 4] 1).getD 14 0
        + 2 ^ 8 * (sprite_to_bin [] 8 2 2 [1, 2, 3, 4] 1).getD 15 0
      ≠ xor_fold_words [1, 2, 3, 4] := by
  exact ⟨by decide, by decide, by decide⟩

theorem generate_hash_lt (stream : List Nat) (hb : ∀ b ∈ stream, b < 256) :
    generate_hash stream < 2 ^ 16 := by
  have hgetD : ∀ i, stream.getD i 0 < 256 := by
    intro i
    rw [List.getD_eq_getElem?_getD]
    cases hi : stream[i]? with
    | none => simp
    | some v =>
        simp only [Option.getD_some]
        exact hb v (List.getElem?_mem hi)
  have hstep : ∀ (idxs : List Nat) (acc : Nat), acc < 2 ^ 16 →
      idxs.foldl (fun h b => h ^^^ (stream.getD b 0 ||| stream.getD (b + 1) 0 <<< 8)) acc
        < 2 ^ 16 := by
    intro idxs
    induction idxs with
    | nil => intro acc h; simpa using h
    | cons j idxs ih =>
        intro acc h
        refine ih _ (Nat.xor_lt_two_pow h (Nat.or_lt_two_pow ?_ ?_))
        · exact lt_trans (hgetD j) (by norm_num)
        · rw [Nat.shiftLeft_eq]
          have := hgetD (j + 1)
          calc stream.getD (j + 1) 0 * 2 ^ 8 < 256 * 2 ^ 8 := by
                exact Nat.mul_lt_mul_of_lt_of_le this (le_refl _) (by norm_num)
            _ = 2 ^ 16 := by norm_num
  exact hstep _ 0 (by norm_num)

/-- C9 amended: the 16-bit hash field written into the header by
`BinSprite::to_bin` (bytes 14 and 15, little-endian) equals the XOR over
`k < stream.length / 2` of the overlapping byte pairs
`stream[k] | stream[k+1] << 8` — consecutive bytes, not the 16-bit words of
the stream. -/
theorem sprite_hash_spec (palette : List Nat) (bd w h iter : Nat) (stream : List Nat)
    (hb : ∀ b ∈ stream, b < 256) :
    (sprite_to_bin palette bd w h stream iter).getD 14 0
        + 2 ^ 8 * (sprite_to_bin palette bd w h stream iter).getD 15 0
      = generate_hash stream := by
  have hlt := generate_hash_lt stream hb
  unfold sprite_to_bin make_header u16ToLe
  simp only [List.cons_append, List.nil_append, List.getD_cons_zero, List.getD_cons_succ]
  omega

/-- Witness for C9 at the concrete stream `[1, 2, 3, 4]`. -/
theorem sprite_hash_spec_witness :
    (sprite_to_bin [] 8 2 2 [1, 2, 3, 4] 1).getD 14 0
        + 2 ^ 8 * (sprite_to_bin [] 8 2 2 [1, 2, 3, 4] 1).getD 15 0
      = generate_hash [1, 2, 3, 4] := by
  exact sprite_hash_spec [] 8 2 2 1 [1, 2, 3, 4] (by decide)

/-! ### C6 : reindex involution -/

set_option maxRecDepth 100000 in
/-- C6 counterexample: the 64-byte (16-color) RGBA palette of zeros has
length a multiple of 4, yet `reindex_rgba_vector` panics on it (index 8 is
transformed to 16, four colors past the end), so the claimed involution on
all length-multiple-of-4 palettes fails. -/
theorem reindex_involution_counterexample :
    (List.replicate 64 0).length % 4 = 0 ∧
    reindex_rgba_vector (List.replicate 64 0) = none := by
  exact ⟨by decide, by decide⟩

set_option maxRecDepth 20000 in
theorem transform_index_lt (x : Nat) (h : x < 256) : transform_index x < 256 := by
  revert h
  revert x
  decide

theorem reindexColorStep_char (v q : List Nat) (n : Nat) (hqlen : q.length = v.length)
    (hsrc : 4 * transform_index (n % 256) + 3 < v.length) (hdst : 4 * n + 3 < v.length) :
    ∃ q2, reindexColorStep v q n = some q2 ∧ q2.length = v.length ∧
      ∀ j, q2[j]? =
        if 4 * n ≤ j ∧ j < 4 * n + 4
        then v[4 * transform_index (n % 256) + (j - 4 * n)]?
        else q[j]? := by
  unfold reindexColorStep
  have h0 : 4 * transform_index (n % 256) < v.length := by omega
  have h1 : 4 * transform_index (n % 256) + 1 < v.length := by omega
  have h2 : 4 * transform_index (n % 256) + 2 < v.length := by omega
  simp only [List.get?_eq_getElem?, List.getElem?_eq_getElem h0, List.getElem?_eq_getElem h1,
    List.getElem?_eq_getElem h2, List.getElem?_eq_getElem hsrc]
  refine ⟨_, rfl, by simp [hqlen], ?_⟩
  intro j
  by_cases hj0 : j = 4 * n
  · subst hj0
    rw [List.getElem?_set_ne (by omega), List.getElem?_set_ne (by omega),
      List.getElem?_set_ne (by omega),
      List.getElem?_set_self (by omega)]
    rw [if_pos (by omega), show 4 * n - 4 * n = 0 by omega, Nat.add_zero,
      List.getElem?_eq_getElem h0]
  · by_cases hj1 : j = 4 * n + 1
    · subst hj1
      rw [List.getElem?_set_ne (by omega), List.getElem?_set_ne (by omega),
        List.getElem?_set_self (by simp only [List.length_set]; omega)]
      rw [if_pos (by omega), show 4 * n + 1 - 4 * n = 1 by omega,
        List.getElem?_eq_getElem h1]
    · by_cases hj2 : j = 4 * n + 2
      · subst hj2
        rw [List.getElem?_set_ne (by omega),
          List.getElem?_set_self (by simp only [List.length_set]; omega)]
        rw [if_pos (by omega), show 4 * n + 2 - 4 * n = 2 by omega,
          List.getElem?_eq_getElem h2]
      · by_cases hj3 : j = 4 * n + 3
        · subst hj3
          rw [List.getElem?_set_self (by simp only [List.length_set]; omega)]
          rw [if_pos (by omega), show 4 * n + 3 - 4 * n = 3 by omega,
            List.getElem?_eq_getElem hsrc]
        · rw [List.getElem?_set_ne (by omega), List.getElem?_set_ne (by omega),
            List.getElem?_set_ne (by omega), List.getElem?_set_ne (by omega),
            if_neg (by omega)]

theorem reindex_fold_spec (v : List Nat)
    (HB : ∀ i, i < v.length / 4 → 4 * transform_index (i % 256) + 3 < v.length) :
    ∀ n, n ≤ v.length / 4 → ∀ temp : List Nat, temp.length = v.length →
      ∃ q, (List.range n).foldlM (reindexColorStep v) temp = some q ∧
        q.length = v.length ∧
        ∀ j, j < v.length →
          q[j]? = if j < 4 * n then v[4 * transform_index (j / 4 % 256) + j % 4]? else temp[j]? := by
  intro n
  induction n with
  | zero =>
      intro _ temp htemp
      exact ⟨temp, by simp, htemp, fun j _ => by simp⟩
  | succ n ih =>
      intro hn temp htemp
      obtain ⟨q, hq, hqlen, hqchar⟩ := ih (by omega) temp htemp
      have hdiv := Nat.div_mul_le_self v.length 4
      have hsrc : 4 * transform_index (n % 256) + 3 < v.length := HB n (by omega)
      have hdst : 4 * n + 3 < v.length := by omega
      obtain ⟨q2, hq2, hq2len, hq2char⟩ := reindexColorStep_char v q n hqlen hsrc hdst
      refine ⟨q2, ?_, hq2len, ?_⟩
      · rw [List.range_succ, List.foldlM_append, hq]
        simpa using hq2
      · intro j hj
        rw [hq2char j]
        by_cases hcase : 4 * n ≤ j ∧ j < 4 * n + 4
        · rw [if_pos (by omega)]
          have hj4 : j / 4 = n := by omega
          have hj4m : j % 4 = j - 4 * n := by omega
          rw [hj4, hj4m, if_pos (by omega)]
        · rw [if_neg hcase, hqchar j hj]
          by_cases hlt : j < 4 * n
          · rw [if_pos hlt, if_pos (by omega)]
          · rw [if_neg hlt, if_neg (by omega)]

theorem reindex_1024 (v : List Nat) (hv : v.length = 1024) :
    ∃ q, reindex_rgba_vector v = some q ∧ q.length = 1024 ∧
      ∀ j, j < 1024 → q[j]? = v[4 * transform_index (j / 4) + j % 4]? := by
  have HB : ∀ i, i < v.length / 4 → 4 * transform_index (i % 256) + 3 < v.length := by
    intro i hi
    rw [hv] at hi ⊢
    have hi256 : i < 256 := by omega
    have := transform_index_lt (i % 256) (by omega)
    omega
  obtain ⟨q, hq, hqlen, hqchar⟩ :=
    reindex_fold_spec v HB (v.length / 4) (le_refl _) (List.replicate v.length 0) (by simp)
  refine ⟨q, hq, by omega, ?_⟩
  intro j hj
  have := hqchar j (by omega)
  rw [if_pos (by omega)] at this
  rw [this]
  have hj4 : j / 4 % 256 = j / 4 := Nat.mod_eq_of_lt (by omega)
  rw [hj4]

set_option maxRecDepth 20000 in
/-- C6 amended: `transform_index` is an involution on every byte value, and
`reindex_rgba_vector` is an involution on full 256-color (1024-byte) RGBA
palettes; on shorter multiples of 4 (e.g. a 64-byte 16-color palette) the
function panics instead, because the transformed index escapes the palette. -/
theorem reindex_involution_spec :
    (∀ x : Nat, x < 256 → transform_index (transform_index x) = x) ∧
    ∀ p : List Nat, p.length = 1024 →
      ∃ q, reindex_rgba_vector p = some q ∧ reindex_rgba_vector q = some p := by
  have hinv : ∀ x : Nat, x < 256 → transform_index (transform_index x) = x := by decide
  refine ⟨hinv, ?_⟩
  intro p hp
  obtain ⟨q, hq, hqlen, hqchar⟩ := reindex_1024 p hp
  obtain ⟨r, hr, hrlen, hrchar⟩ := reindex_1024 q hqlen
  refine ⟨q, hq, ?_⟩
  rw [hr]
  congr 1
  apply List.ext_getElem?
  intro j
  by_cases hj : j < 1024
  · rw [hrchar j hj]
    have hj4 : j / 4 < 256 := by omega
    have htl := transform_index_lt (j / 4) hj4
    have hidx : 4 * transform_index (j / 4) + j % 4 < 1024 := by omega
    rw [hqchar _ hidx]
    have hdiv : (4 * transform_index (j / 4) + j % 4) / 4 = transform_index (j / 4) := by omega
    have hmod : (4 * transform_index (j / 4) + j % 4) % 4 = j % 4 := by omega
    rw [hdiv, hmod, hinv (j / 4) hj4]
    congr 1
    omega
  · rw [List.getElem?_eq_none (by omega), List.getElem?_eq_none (by omega)]

/-- Witness for C6 at a concrete byte and a concrete 1024-byte palette. -/
theorem reindex_involution_spec_witness :
    transform_index (transform_index 8) = 8 ∧
    ∃ q, reindex_rgba_vector (List.replicate 1024 0) = some q ∧
      reindex_rgba_vector q = some (List.replicate 1024 0) := by
  exact ⟨reindex_involution_spec.1 8 (by decide),
    reindex_involution_spec.2 (List.replicate 1024 0) (by rw [List.length_replicate])⟩

/-! ### C1 : decompressor back-reference tokens -/

theorem pushCopies_spec :
    ∀ (c : Nat) (pv : List Nat) (idx : Nat) (q : List Nat),
      pushCopies pv idx c = some q →
      ∃ copied, q = pv ++ copied ∧ copied.length = c ∧
        ∀ j, j < c → copied.get? j = (pv ++ copied.take j).get? (idx + j) := by
  intro c
  induction c with
  | zero =>
      intro pv idx q hq
      refine ⟨[], ?_, rfl, fun j hj => absurd hj (by omega)⟩
      simpa [pushCopies] using hq.symm
  | succ c ih =>
      intro pv idx q hq
      unfold pushCopies at hq
      cases hx : pv.get? idx with
      | none => rw [hx] at hq; exact absurd hq (by simp)
      | some x =>
          rw [hx] at hq
          obtain ⟨copied, hqe, hlen, hchar⟩ := ih (pv ++ [x]) (idx + 1) q hq
          refine ⟨x :: copied, ?_, by simp [hlen], ?_⟩
          · rw [hqe, List.append_assoc, List.singleton_append]
          · intro j hj
            cases j with
            | zero =>
                simp only [List.get?_eq_getElem?, List.getElem?_cons_zero, List.take_zero,
                  List.append_nil, Nat.add_zero]
                exact ((List.get?_eq_getElem? pv idx).symm.trans hx).symm
            | succ k =>
                have hk : k < c := by omega
                have := hchar k hk
                simp only [List.get?_eq_getElem?] at this ⊢
                rw [List.getElem?_cons_succ, this, List.append_assoc, List.singleton_append,
                  List.take_succ_cons]
                congr 1
                omega

/-- C1: when `decompress` reads a token whose flag bit is 0, it reads a
9-bit offset then a 7-bit length field and appends exactly
`length_field + 3` pixels one at a time, the `j`-th appended pixel being
copied from `pixel_vector[window_origin + offset + j]` with
`window_origin = max(0, output length - 512)` fixed at the start of the
token, the source being the evolving vector (so a reference into pixels
appended by the same token reproduces them). -/
theorem decompress_backref_spec (pixel_count : Nat) (pv : List Nat)
    (bits r1 r2 r3 : List Bool) (offset lenField : Nat) (out : List Nat × List Bool)
    (hbit : readBit bits = some (false, r1))
    (hoff : readBits 9 r1 = some (offset, r2))
    (hlen : readBits 7 r2 = some (lenField, r3))
    (hstep : decompressStep pixel_count pv bits = some out) :
    out.2 = r3 ∧
    ∃ copied, out.1 = pv ++ copied ∧ copied.length = lenField + 3 ∧
      ∀ j, j < lenField + 3 →
        copied.get? j = (pv ++ copied.take j).get? (pv.length - 512 + offset + j) := by
  unfold decompressStep at hstep
  rw [hbit] at hstep
  simp only at hstep
  rw [hoff] at hstep
  simp only at hstep
  rw [hlen] at hstep
  simp only at hstep
  have hw : (if pv.length > 512 then pv.length - 512 else 0) = pv.length - 512 := by
    split <;> omega
  rw [hw] at hstep
  cases hpc : pushCopies pv (pv.length - 512 + offset) (3 + lenField) with
  | none => rw [hpc] at hstep; exact absurd hstep (by simp)
  | some pv2 =>
      rw [hpc] at hstep
      simp only [Option.some.injEq] at hstep
      obtain ⟨copied, hqe, hclen, hchar⟩ := pushCopies_spec _ _ _ _ hpc
      refine ⟨by rw [← hstep], copied, ?_, by omega, ?_⟩
      · rw [← hstep, hqe]
      · intro j hj
        exact hchar j (by omega)

/-- Witness for C1: an overlapping back-reference (offset 0 at output length
3, copying 5 pixels) reproduces pixels appended by the same token. -/
theorem decompress_backref_spec_witness :
    (([5, 6, 7, 5, 6, 7, 5, 6] : List Nat), ([] : List Bool)).2 = [] ∧
    ∃ copied, (([5, 6, 7, 5, 6, 7, 5, 6] : List Nat), ([] : List Bool)).1
        = [5, 6, 7] ++ copied ∧ copied.length = 2 + 3 ∧
      ∀ j, j < 2 + 3 →
        copied.get? j
          = (([5, 6, 7] : List Nat) ++ copied.take j).get?
              (([5, 6, 7] : List Nat).length - 512 + 0 + j) := by
  exact decompress_backref_spec 100 [5, 6, 7]
    [false, false, false, false, false, false, false, false, false, false,
     false, false, false, false, false, true, false]
    [false, false, false, false, false, false, false, false, false,
     false, false, false, false, false, true, false]
    [false, false, false, false, false, true, false] [] 0 2
    ([5, 6, 7, 5, 6, 7, 5, 6], [])
    (by decide) (by decide) (by decide) (by decide)

/-! ### C4 : decrypt_file chaining -/

theorem decryptWords_chain :
    ∀ (n : Nat) (data : List Nat), data.length ≤ n → ∀ (st : MTState) (lastOut : Nat),
      decryptWordsCode st lastOut data
        = ((chainPlain lastOut (cipherWords data)
              (mtRunCode st (cipherWords data).length)).map u32ToLe).flatten := by
  intro n
  induction n with
  | zero =>
      intro data h st lastOut
      have hdata : data = [] := List.length_eq_zero.mp (by omega)
      subst hdata
      rfl
  | succ n ih =>
      intro data h st lastOut
      match data with
      | [] => rfl
      | [a] => rfl
      | [a, b] => rfl
      | [a, b, c] => rfl
      | a :: b :: c :: d :: rest =>
          simp only [decryptWordsCode, cipherWords, List.length_cons, mtRunCode, chainPlain,
            List.map_cons, List.flatten_cons]
          rw [ih rest (by simp at h; omega)]

/-- C4: `decrypt_file` equals the specification's chained stream cipher: for
the seed folded from the upper-cased file name, with `last_out` starting at
`0x43415046`, each little-endian ciphertext word `c_j` yields
`plain_j = last_out ^ c_j ^ twister_j` which becomes the next `last_out`,
and the plain words are emitted little-endian (trailing non-word bytes are
dropped). -/
theorem decrypt_file_spec (name data : List Nat) :
    decrypt_file name data
      = ((chainPlain 0x43415046 (cipherWords data)
            (mtRunCode { index := 624, table := mtInitTable (seedOfName name) }
              (cipherWords data).length)).map u32ToLe).flatten := by
  unfold decrypt_file
  exact decryptWords_chain data.length data (le_refl _) _ _

/-! ### C3 : MT19937 -/

theorem twistValue_eq : twistValueCode = twistValueRef := by
  funext a b
  unfold twistValueCode twistValueRef
  have hmask : (0x7FFFFFFF : Nat) < 2 ^ 31 := by norm_num
  have hb : b &&& 0x7FFFFFFF < 2 ^ 31 := Nat.and_lt_two_pow b hmask
  rw [show (0x80000000 : Nat) = 2 ^ 31 by norm_num, Nat.and_two_pow]
  cases h : a.testBit 31 with
  | false => simp
  | true =>
      simp only [Bool.toNat_true, one_mul]
      rw [show ((2 : Nat) ^ 31) = 2 ^ 31 * 1 by ring, Nat.mul_add_lt_is_or hb 1]

theorem temper_eq : temperCode = temperRef := rfl

theorem mtTwist_eq (table : List Nat) : mtTwistCode table = mtTwistRef table := by
  unfold mtTwistCode mtTwistRef
  congr 1
  funext t i
  simp only [twistValue_eq]
  rcases Nat.mod_two_eq_zero_or_one (twistValueRef (t.getD i 0) (t.getD ((i + 1) % 624) 0))
    with h | h
  · rw [Nat.and_one_is_mod, h]
    simp
  · rw [Nat.and_one_is_mod, h]
    simp

theorem mtInitRev_eq (seed : Nat) :
    ∀ i, mtInitRev seed i = ((List.range (i + 1)).reverse.map (mtRefWord seed)) := by
  intro i
  induction i with
  | zero => rfl
  | succ i ih =>
      have hhead : ((List.range (i + 1)).reverse.map (mtRefWord seed)).headD 0
          = mtRefWord seed i := by
        rw [List.range_succ]
        simp
      unfold mtInitRev
      simp only [ih, hhead]
      rw [List.range_succ (n := i + 1), List.reverse_append, List.map_append]
      simp only [List.reverse_cons, List.reverse_nil, List.nil_append, List.map_cons,
        List.map_nil, List.singleton_append]
      rfl

theorem mtInit_eq (seed : Nat) : mtInitTable seed = mtRefTable seed := by
  unfold mtInitTable mtRefTable
  rw [mtInitRev_eq, ← List.map_reverse, List.reverse_reverse]

theorem mtNext_eq (s : MTState) : mtNextCode s = mtNextRef s := by
  unfold mtNextCode mtNextRef
  rw [mtTwist_eq, temper_eq]

theorem mtRun_eq (s : MTState) (n : Nat) : mtRunCode s n = mtRunRef s n := by
  induction n generalizing s with
  | zero => rfl
  | succ n ih =>
      simp only [mtRunCode, mtRunRef, mtNext_eq, ih]

set_option maxRecDepth 100000 in
/-- C3: the Decryption Engine's PRNG is bit-for-bit standard MT19937: for
every seed and output position the code's generator produces exactly the
published MT19937 value (the code combines the masked state halves with `+`
where the reference uses `|`, which coincide because the masks are
disjoint); the three published outputs for the reference seed 5489 are
reproduced. -/
theorem mt19937_bit_for_bit :
    (∀ seed n : Nat, mtSequence seed n = mtRefSequence seed n) ∧
    mtSequence 5489 3 = [3499211612, 581869302, 3890346734] := by
  constructor
  · intro seed n
    unfold mtSequence mtRefSequence
    rw [mtInit_eq, mtRun_eq]
  · decide

/-! ### C8 : cell JSON round trip -/

/-- C8 counterexample: a box with negative `crop_x_offset` comes back with
`crop_y_offset = -1` (the sign extension of `crop_x as u32` floods bits
24–31 of the packed field), and a nonzero `unknown_2` always comes back 0. -/
theorem cell_json_counterexample :
    Cell.from_json (Cell.serialize
        { boxes := [⟨0, 0, 0, 0, 0, -1, 0⟩], sprite_x_offset := 0, sprite_y_offset := 0,
          unknown_1 := 0, sprite_index := 0, unknown_2 := 0 })
      ≠ { boxes := [⟨0, 0, 0, 0, 0, -1, 0⟩], sprite_x_offset := 0, sprite_y_offset := 0,
          unknown_1 := 0, sprite_index := 0, unknown_2 := 0 } ∧
    Cell.from_json (Cell.serialize
        { boxes := [], sprite_x_offset := 0, sprite_y_offset := 0,
          unknown_1 := 0, sprite_index := 0, unknown_2 := 1 })
      ≠ { boxes := [], sprite_x_offset := 0, sprite_y_offset := 0,
          unknown_1 := 0, sprite_index := 0, unknown_2 := 1 } := by
  exact ⟨by decide, by decide⟩

theorem unpack_pack (bt : Nat) (x y : Int) (hbt : bt < 2 ^ 16) (hx0 : 0 ≤ x) (hx1 : x ≤ 127)
    (hy0 : -128 ≤ y) (hy1 : y ≤ 127) :
    (bt ||| (toU32 x <<< 16) % 2 ^ 32 ||| (toU32 y <<< 24) % 2 ^ 32) &&& 0xFFFF = bt ∧
    byteToI8 (((bt ||| (toU32 x <<< 16) % 2 ^ 32 ||| (toU32 y <<< 24) % 2 ^ 32) >>> 16) &&& 0xFF)
      = x ∧
    byteToI8 (((bt ||| (toU32 x <<< 16) % 2 ^ 32 ||| (toU32 y <<< 24) % 2 ^ 32) >>> 24) &&& 0xFF)
      = y := by
  have hxN : x.toNat < 128 := by omega
  have hyB : (y % 256).toNat < 256 := by omega
  have hX : (toU32 x <<< 16) % 2 ^ 32 = 2 ^ 16 * x.toNat := by
    unfold toU32
    rw [Int.emod_eq_of_lt hx0 (by omega), Nat.shiftLeft_eq,
      Nat.mod_eq_of_lt (by nlinarith [hxN])]
    ring
  have hY : (toU32 y <<< 24) % 2 ^ 32 = 2 ^ 24 * (y % 256).toNat := by
    unfold toU32
    rcases le_or_lt 0 y with hy | hy
    · rw [show y % (2 : Int) ^ 32 = y from Int.emod_eq_of_lt hy (by omega), Nat.shiftLeft_eq,
        Nat.mod_eq_of_lt (by nlinarith [show y.toNat < 128 by omega])]
      have : (y % 256).toNat = y.toNat := by omega
      rw [this]
      ring
    · have h1 : y % (2 : Int) ^ 32 = y + 2 ^ 32 := by omega
      have hk : (y + (2 : Int) ^ 32).toNat = (y + 256).toNat + 0xFFFFFF00 := by omega
      have h2 : (y % 256).toNat = (y + 256).toNat := by omega
      rw [h1, hk, h2, Nat.shiftLeft_eq]
      have ha : (y + 256).toNat < 256 := by omega
      omega
  have hpack : bt ||| (toU32 x <<< 16) % 2 ^ 32 ||| (toU32 y <<< 24) % 2 ^ 32
      = bt + 2 ^ 16 * x.toNat + 2 ^ 24 * (y % 256).toNat := by
    rw [hX, hY]
    have h1 : bt ||| 2 ^ 16 * x.toNat = 2 ^ 16 * x.toNat + bt := by
      rw [Nat.lor_comm, ← Nat.mul_add_lt_is_or hbt x.toNat]
    rw [h1]
    have h2 : 2 ^ 16 * x.toNat + bt < 2 ^ 24 := by omega
    rw [Nat.lor_comm, ← Nat.mul_add_lt_is_or h2 ((y % 256).toNat)]
    ring
  rw [hpack]
  refine ⟨?_, ?_, ?_⟩
  · rw [show (0xFFFF : Nat) = 2 ^ 16 - 1 by norm_num, Nat.and_pow_two_sub_one_eq_mod]
    omega
  · rw [Nat.shiftRight_eq_div_pow, show (0xFF : Nat) = 2 ^ 8 - 1 by norm_num,
      Nat.and_pow_two_sub_one_eq_mod,
      show (bt + 2 ^ 16 * x.toNat + 2 ^ 24 * (y % 256).toNat) / 2 ^ 16 % 2 ^ 8 = x.toNat by omega]
    unfold byteToI8
    rw [if_pos hxN]
    omega
  · rw [Nat.shiftRight_eq_div_pow, show (0xFF : Nat) = 2 ^ 8 - 1 by norm_num,
      Nat.and_pow_two_sub_one_eq_mod,
      show (bt + 2 ^ 16 * x.toNat + 2 ^ 24 * (y % 256).toNat) / 2 ^ 24 % 2 ^ 8
        = (y % 256).toNat by omega]
    unfold byteToI8
    split <;> omega

/-- C8 amended: parsing the serialized cell reconstructs every field except
`unknown_2`, which `from_json_string` always resets to 0; the packed
`box_type` round-trips exactly when each box's `crop_x_offset` is
nonnegative (a negative `crop_x_offset` corrupts the recovered
`crop_y_offset`). For cells with `unknown_2 = 0` and in-range boxes with
`crop_x_offset ≥ 0` the round trip is the identity. -/
theorem cell_json_round_trip (c : Cell) (hu2 : c.unknown_2 = 0)
    (hboxes : ∀ b ∈ c.boxes, b.box_type < 2 ^ 16 ∧ 0 ≤ b.crop_x_offset ∧
      b.crop_x_offset ≤ 127 ∧ -128 ≤ b.crop_y_offset ∧ b.crop_y_offset ≤ 127) :
    Cell.from_json (Cell.serialize c) = c := by
  obtain ⟨boxes, sx, sy, u1, si, u2⟩ := c
  simp only at hu2 hboxes
  subst hu2
  simp only [Cell.serialize, Cell.from_json, List.map_map, Cell.mk.injEq, and_true, true_and]
  induction boxes with
  | nil => rfl
  | cons b bs ih =>
      have hb := hboxes b (by simp)
      obtain ⟨h1, h2, h3⟩ := unpack_pack b.box_type b.crop_x_offset b.crop_y_offset
        hb.1 hb.2.1 hb.2.2.1 hb.2.2.2.1 hb.2.2.2.2
      simp only [List.map_cons, Function.comp]
      rw [ih (fun b hb => hboxes b (by simp [hb]))]
      simp only [List.cons.injEq, and_true]
      obtain ⟨bx, by_, bw, bh, bbt, bcx, bcy⟩ := b
      simp only [BoxInfo.mk.injEq, true_and]
      exact ⟨h1, h2, h3⟩

/-- Witness for C8 at a concrete in-range cell. -/
theorem cell_json_round_trip_witness :
    Cell.from_json (Cell.serialize
        { boxes := [⟨4, -9, 10, 11, 7, 3, -5⟩], sprite_x_offset := -2, sprite_y_offset := 6,
          unknown_1 := 12, sprite_index := 13, unknown_2 := 0 })
      = { boxes := [⟨4, -9, 10, 11, 7, 3, -5⟩], sprite_x_offset := -2, sprite_y_offset := 6,
          unknown_1 := 12, sprite_index := 13, unknown_2 := 0 } := by
  exact cell_json_round_trip _ rfl (by decide)

/-! ### C10 : identify_object totality -/

/-- C10 counterexample: on the empty blob (whose pointer table is empty)
`identify_audio_wbnd` reads `pointers[0]` out of bounds, so `identify_object`
panics (`none`) instead of returning an `ObjectType`. -/
theorem identify_object_counterexample : identify_object [] = none := by decide

/-- C10 amended: identification is not total — whenever the big-endian
pointer table of the blob is empty (blob shorter than 4 bytes, or leading
sentinel `0xFFFFFFFF`), `identify_object` panics in `identify_audio_wbnd`;
when every predicate evaluates without panicking and none matches, the blob
is classified `Unsupported` (raw passthrough) rather than rejected. -/
theorem identify_object_amended (data : List Nat) :
    (get_pointers data 0 true = [] → identify_object data = none) ∧
    (identify_audio_wbnd data = some false → identify_audio_vagp data = some false →
     identify_sprite data = false → identify_sprite_list_select data = some false →
     identify_sprite_list data = false → identify_jpf_plain_text data = false →
     identify_wii_tpl data = some false → identify_scriptable data = some false →
     identify_multi_scriptable data = some false →
     identify_object data = some ObjectType.Unsupported) := by
  constructor
  · intro h
    unfold identify_object identify_audio_wbnd
    rw [h]
    rfl
  · intro h1 h2 h3 h4 h5 h6 h7 h8 h9
    unfold identify_object
    rw [h1, h2, h3, h4, h5, h6, h7, h8, h9]
    rfl

/-- Witness for C10 at a concrete blob matching no predicate. -/
theorem identify_object_amended_witness :
    identify_object (List.replicate 8 1) = some ObjectType.Unsupported := by
  exact (identify_object_amended (List.replicate 8 1)).2 (by decide) (by decide) (by decide)
    (by decide) (by decide) (by decide) (by decide) (by decide) (by decide)

end GGPR
